import Mathlib

/-!
The tool clone-group-gitlab: discovery and cloning, embedded from `src/main.go`.

The program loads a configuration, walks a GitLab group (paginated project
listing, subgroup listing, recursion over subgroups) and then runs
`git clone` once per discovered project.

Embedding conventions.

* A Go `string` / `[]byte` is a list of bytes (`GoString`); slicing is by byte.
* A Go `error` is `Option GoString`: `none` is `nil`, `some m` an error whose
  message is `m`.  Functions returning `(value, error)` return a pair.
* A run-time panic is the `Except.error` branch of `Except GoString _`.
* Everything outside the process (HTTP server, JSON decoder, file system,
  the `git` subprocess) is a field of `World`.  Every interaction is appended
  to a `Trace`; the world answers as a function of the whole history, so a
  server or a subprocess may answer the same request differently each time.
* The two unbounded constructs (the page loop of `getProjects`, the recursion
  of `getAllProjects`) take a fuel argument; a result `none` means that the
  fuel ran out before the function returned.
* Paths follow the Unix rules of `path/filepath` (separator `/`).
-/

namespace CloneGroupGitlab

/-! ## Strings -/

/-- A Go string: a sequence of bytes. -/
abbrev GoString := List UInt8

/-- A Go error value; `none` is `nil`. -/
abbrev GoError := Option GoString

deriving instance DecidableEq for Except

/-- The bytes (UTF-8) of a string literal of the source. -/
def go (s : String) : GoString := s.data.flatMap String.utf8EncodeChar

/-- Decimal rendering of an integer, as done by `strconv.Itoa` and by the
`%d` verb of `fmt`. -/
def itoa : Int → GoString
  | Int.ofNat n => go (Nat.repr n)
  | Int.negSucc n => go "-" ++ go (Nat.repr (n + 1))

/-! ## Data model (`src/main.go` lines 17-23 and 57-66) -/

structure Settings where
  GitLabURL : GoString
  GroupID : GoString
  PrivateToken : GoString
  CloneDir : GoString
  PerPage : Int
  deriving DecidableEq, Repr

structure Project where
  HTTPURLToRepo : GoString
  Name : GoString
  PathWithNamespace : GoString
  deriving DecidableEq, Repr

structure Subgroup where
  ID : Int
  Path : GoString
  deriving DecidableEq, Repr

/-! ## The outside world -/

/-- What `client.Do` hands back when the transport succeeded: the status code,
the status line, and the outcome of `io.ReadAll` on the body (the bytes read
and the read error, if any). -/
structure Response where
  StatusCode : Nat
  Status : GoString
  Body : GoString
  ReadErr : GoError
  deriving DecidableEq, Repr

/-- Outcome of building and sending one GET request: an error of
`http.NewRequest` or `client.Do`, or a response. -/
inductive HttpResult where
  | failed (err : GoString)
  | response (resp : Response)
  deriving DecidableEq, Repr

/-- Outcome of `os.Stat` as far as `os.IsNotExist` distinguishes it. -/
inductive StatResult where
  | found
  | notExist
  | otherError
  deriving DecidableEq, Repr

/-- The keys a configuration file provides, after YAML decoding: `none` for a
key that does not occur in the file. -/
structure ConfigFile where
  gitlab_url : Option GoString
  group_id : Option GoString
  token : Option GoString
  clone_dir : Option GoString
  per_page : Option Int
  deriving DecidableEq, Repr

/-- Outcome of opening and decoding the configuration file. -/
inductive ParseResult where
  | failed (err : GoString)
  | parsed (file : ConfigFile)
  deriving DecidableEq, Repr

/-- One interaction of the process with the outside world. -/
inductive Event where
  | stat (path : GoString) (r : StatResult)
  | readConfig (path : GoString) (r : ParseResult)
  | httpGet (url token : GoString) (r : HttpResult)
  | mkdirAll (path : GoString) (perm : Nat) (err : GoError)
  | stdout (text : GoString)
  | exec (name : GoString) (args : List GoString) (err : GoError)
  deriving DecidableEq, Repr

/-- The history of a run, oldest event first. -/
abbrev Trace := List Event

/-- Everything the program calls but does not define.  Each answer may depend
on the history so far. -/
structure World where
  /-- Library call `os.Stat` on a path. -/
  stat : Trace → GoString → StatResult
  /-- Opening the configuration file and decoding it. -/
  parseConfig : Trace → GoString → ParseResult
  /-- A GET request for a URL carrying a `PRIVATE-TOKEN` header. -/
  httpGet : Trace → GoString → GoString → HttpResult
  /-- Decoding of a body with `json.Unmarshal` into a slice of projects. -/
  unmarshalProjects : GoString → Except GoString (List Project)
  /-- Decoding of a body with `json.Unmarshal` into a slice of subgroups. -/
  unmarshalSubgroups : GoString → Except GoString (List Subgroup)
  /-- Library call `os.MkdirAll` on a path with a permission mode. -/
  mkdirAll : Trace → GoString → Nat → GoError
  /-- Running a command to completion (`cmd.Run`). -/
  run : Trace → GoString → List GoString → GoError

/-! ## `path/filepath` on Unix -/

/-- The byte `/`. -/
def slash : UInt8 := 47

/-- The byte `.`. -/
def dot : UInt8 := 46

/-- The elements of a path between its separators. -/
def splitSlash : GoString → List GoString
  | [] => [[]]
  | c :: cs =>
    if c = slash then [] :: splitSlash cs
    else
      match splitSlash cs with
      | [] => [[c]]
      | h :: t => (c :: h) :: t

/-- One step of `filepath.Clean` over the elements of a path; `out` holds the
elements kept so far, last one first. -/
def cleanStep (rooted : Bool) (out : List GoString) (el : GoString) : List GoString :=
  if el = [] ∨ el = [dot] then out
  else if el = [dot, dot] then
    match out with
    | top :: rest =>
      if top = [dot, dot] then (if rooted then out else el :: out) else rest
    | [] => if rooted then out else [el]
  else el :: out

/-- The library function `filepath.Clean` (Go standard library, Unix), after
its documented rules: runs of separators become one, `.` elements vanish, an
inner `..` removes the element before it, a `..` at the start of a rooted path
vanishes, and the empty result is `.`. -/
def filepathClean (path : GoString) : GoString :=
  match path with
  | [] => [dot]
  | c :: _ =>
    let rooted := decide (c = slash)
    let out := ((splitSlash path).foldl (cleanStep rooted) []).reverse
    let body := [slash].intercalate out
    if rooted then slash :: body
    else if out = [] then [dot] else body

/-- The library function `filepath.Join` for two elements: empty elements are
ignored, the rest are joined with `/` and cleaned; all empty gives the empty
string. -/
def filepathJoin (a b : GoString) : GoString :=
  if a = [] then (if b = [] then [] else filepathClean b)
  else filepathClean (a ++ slash :: b)

/-- The part of a path up to and including its last separator. -/
def upToLastSlash : GoString → GoString
  | [] => []
  | c :: cs =>
    if slash ∈ cs then c :: upToLastSlash cs
    else if c = slash then [c] else []

/-- The library function `filepath.Dir`: everything but the last element of
the path, cleaned. -/
def filepathDir (path : GoString) : GoString :=
  filepathClean (upToLastSlash path)

/-! ## Configuration loading (`src/main.go` lines 25-55) -/

/-- The function `fetchConfigPath`: the value of the `-config` flag, or the
default path when the flag is empty. -/
def fetchConfigPath (configFlag : GoString) : GoString :=
  if configFlag = [] then go "./config.yaml" else configFlag

/-- The zero value of `Settings`, as `var cfg Settings` declares it. -/
def Settings.zero : Settings :=
  { GitLabURL := [], GroupID := [], PrivateToken := [], CloneDir := [], PerPage := 0 }

/-- The library call `cleanenv.ReadConfig(path, &cfg)` on a zero-valued
`Settings` (third-party library; after its documented behaviour).  The file is
decoded onto the struct by the `yaml` tags of lines 18-22: a key of the file
overwrites its field, a field whose key is absent keeps its value.  The
presence of a value is enforced only for a field tagged `env-required`, and a
substitute is supplied only for one tagged `env-default` or `env`; no field of
`Settings` carries such a tag. -/
def readConfig (w : World) (path : GoString) (tr : Trace) : (Settings × GoError) × Trace :=
  let r := w.parseConfig tr path
  let tr := tr ++ [Event.readConfig path r]
  match r with
  | ParseResult.failed err => ((Settings.zero, some err), tr)
  | ParseResult.parsed f =>
    (({ GitLabURL := f.gitlab_url.getD Settings.zero.GitLabURL
        GroupID := f.group_id.getD Settings.zero.GroupID
        PrivateToken := f.token.getD Settings.zero.PrivateToken
        CloneDir := f.clone_dir.getD Settings.zero.CloneDir
        PerPage := f.per_page.getD Settings.zero.PerPage }, none), tr)

/-- The function `MustLoad`; `Except.error` is a panic with its message. -/
def MustLoad (w : World) (configFlag : GoString) (tr : Trace) :
    Except GoString Settings × Trace :=
  let configPath := fetchConfigPath configFlag
  if configPath = [] then (Except.error (go "config path is empty"), tr)
  else
    let st := w.stat tr configPath
    let tr := tr ++ [Event.stat configPath st]
    if st = StatResult.notExist then
      (Except.error (go "config file does not exist: " ++ configPath), tr)
    else
      match readConfig w configPath tr with
      | ((_, some err), tr) => (Except.error (go "error reading config: " ++ err), tr)
      | ((cfg, none), tr) => (Except.ok cfg, tr)

/-! ## Discovery (`src/main.go` lines 68-149) -/

/-- The function `sendRequest`. -/
def sendRequest (w : World) (cfg : Settings) (url : GoString) (tr : Trace) :
    (GoString × GoError) × Trace :=
  let r := w.httpGet tr url cfg.PrivateToken
  let tr := tr ++ [Event.httpGet url cfg.PrivateToken r]
  match r with
  | HttpResult.failed err => (([], some err), tr)
  | HttpResult.response resp =>
    if resp.StatusCode ≠ 200 then
      (([], some (go "HTTP request failed with status " ++ resp.Status)), tr)
    else ((resp.Body, resp.ReadErr), tr)

/-- The URL of one page of the project listing of a group (line 73). -/
def projectsURL (cfg : Settings) (groupID : GoString) (page : Nat) : GoString :=
  cfg.GitLabURL ++ go "/api/v4/groups/" ++ groupID ++ go "/projects?per_page="
    ++ itoa cfg.PerPage ++ go "&page=" ++ itoa (page : Int)

/-- The URL of the subgroup listing of a group (line 94). -/
def subgroupsURL (cfg : Settings) (groupID : GoString) : GoString :=
  cfg.GitLabURL ++ go "/api/v4/groups/" ++ groupID ++ go "/subgroups"

/-- The result of a function that needs fuel: `none` while it has not returned,
else the pair `(projects, err)` it returns. -/
abbrev Listing := Option (List Project × GoError)

/-- The loop of `getProjects` (lines 72-88), entered with the projects gathered
so far and the next page number. -/
def getProjectsLoop (w : World) (cfg : Settings) (groupID : GoString) :
    Nat → List Project → Nat → Trace → Listing × Trace
  | 0, _, _, tr => (none, tr)
  | fuel + 1, projects, page, tr =>
    match sendRequest w cfg (projectsURL cfg groupID page) tr with
    | ((_, some err), tr) => (some ([], some err), tr)
    | ((resp, none), tr) =>
      match w.unmarshalProjects resp with
      | Except.error err => (some ([], some err), tr)
      | Except.ok batch =>
        if batch.length = 0 then (some (projects, none), tr)
        else getProjectsLoop w cfg groupID fuel (projects ++ batch) (page + 1) tr

/-- The function `getProjects`. -/
def getProjects (w : World) (cfg : Settings) (fuel : Nat) (groupID : GoString) (tr : Trace) :
    Listing × Trace :=
  getProjectsLoop w cfg groupID fuel [] 1 tr

/-- The function `getSubgroups`. -/
def getSubgroups (w : World) (cfg : Settings) (groupID : GoString) (tr : Trace) :
    (List Subgroup × GoError) × Trace :=
  match sendRequest w cfg (subgroupsURL cfg groupID) tr with
  | ((_, some err), tr) => (([], some err), tr)
  | ((resp, none), tr) =>
    match w.unmarshalSubgroups resp with
    | Except.error err => (([], some err), tr)
    | Except.ok subgroups => ((subgroups, none), tr)

/-- The loop of `getAllProjects` over the subgroups (lines 119-125); `visit` is
the recursive call. -/
def subgroupsLoop (visit : GoString → Trace → Listing × Trace) :
    List Subgroup → List Project → Trace → Listing × Trace
  | [], projects, tr => (some (projects, none), tr)
  | subgroup :: rest, projects, tr =>
    match visit (itoa subgroup.ID) tr with
    | (none, tr) => (none, tr)
    | (some (_, some err), tr) => (some ([], some err), tr)
    | (some (subProjects, none), tr) =>
      subgroupsLoop visit rest (projects ++ subProjects) tr

/-- The function `getAllProjects`. -/
def getAllProjects (w : World) (cfg : Settings) :
    Nat → GoString → Trace → Listing × Trace
  | 0, _, tr => (none, tr)
  | fuel + 1, groupID, tr =>
    match getProjects w cfg fuel groupID tr with
    | (none, tr) => (none, tr)
    | (some (_, some err), tr) => (some ([], some err), tr)
    | (some (projects, none), tr) =>
      match getSubgroups w cfg groupID tr with
      | ((_, some err), tr) => (some ([], some err), tr)
      | ((subgroups, none), tr) =>
        subgroupsLoop (getAllProjects w cfg fuel) subgroups projects tr

/-! ## Cloning (`src/main.go` lines 151-178) -/

/-- The function `addTokenToURL`.  The slice `repoURL[8:]` panics when the URL
has fewer than 8 bytes. -/
def addTokenToURL (repoURL token : GoString) : Except GoString GoString :=
  if repoURL.length < 8 then
    Except.error (go "runtime error: slice bounds out of range [8:"
      ++ itoa (repoURL.length : Int) ++ go "]")
  else Except.ok (go "https://" ++ token ++ go "@" ++ repoURL.drop 8)

/-- The line printed before a clone (line 160). -/
def cloningLine (project : Project) (projectPath : GoString) : GoString :=
  go "Cloning " ++ project.Name ++ go " into " ++ projectPath ++ go "...\n"

/-- The line printed after a failed clone (line 167). -/
def failedLine (project : Project) (err : GoString) : GoString :=
  go "Failed to clone " ++ project.Name ++ go ": " ++ err ++ go "\n"

/-- The function `cloneProjects`; `Except.error` is a panic, `Except.ok` the
returned error value. -/
def cloneProjects (w : World) (cfg : Settings) :
    List Project → Trace → Except GoString GoError × Trace
  | [], tr => (Except.ok none, tr)
  | project :: rest, tr =>
    let projectPath := filepathJoin cfg.CloneDir project.PathWithNamespace
    let dir := filepathDir projectPath
    let mk := w.mkdirAll tr dir 0o755
    let tr := tr ++ [Event.mkdirAll dir 0o755 mk]
    match mk with
    | some err => (Except.ok (some err), tr)
    | none =>
      match addTokenToURL project.HTTPURLToRepo cfg.PrivateToken with
      | Except.error p => (Except.error p, tr)
      | Except.ok repoURL =>
        let tr := tr ++ [Event.stdout (cloningLine project projectPath)]
        let args := [go "clone", repoURL, projectPath]
        let r := w.run tr (go "git") args
        let tr := tr ++ [Event.exec (go "git") args r]
        let tr :=
          match r with
          | some err => tr ++ [Event.stdout (failedLine project err)]
          | none => tr
        let tr := tr ++ [Event.stdout (go "\n")]
        cloneProjects w cfg rest tr

/-! ## The entry point (`src/main.go` lines 180-198) -/

/-- The function `main`: `none` when the fuel ran out during discovery,
`Except.error` for a panic, `Except.ok ()` for a normal return. -/
def main (w : World) (fuel : Nat) (configFlag : GoString) (tr : Trace) :
    Option (Except GoString Unit) × Trace :=
  match MustLoad w configFlag tr with
  | (Except.error p, tr) => (some (Except.error p), tr)
  | (Except.ok cfg, tr) =>
    let tr := tr ++ [Event.stdout (go "Fetching all projects...\n")]
    match getAllProjects w cfg fuel cfg.GroupID tr with
    | (none, tr) => (none, tr)
    | (some (_, some err), tr) =>
      (some (Except.ok ()), tr ++ [Event.stdout (go "Error fetching projects: " ++ err ++ go "\n")])
    | (some (projects, none), tr) =>
      let tr := tr ++ [Event.stdout
        (go "Found " ++ itoa (projects.length : Int) ++ go " projects.\n")]
      match cloneProjects w cfg projects tr with
      | (Except.error p, tr) => (some (Except.error p), tr)
      | (Except.ok (some err), tr) =>
        (some (Except.ok ()), tr ++ [Event.stdout (go "Error cloning projects: " ++ err ++ go "\n")])
      | (Except.ok none, tr) =>
        (some (Except.ok ()), tr ++ [Event.stdout (go "All projects cloned successfully.\n")])

/-! ## Reading a trace -/

/-- The commands run, in order: name and arguments of every `exec` event. -/
def execCalls (tr : Trace) : List (GoString × List GoString) :=
  tr.filterMap fun ev =>
    match ev with
    | Event.exec name args _ => some (name, args)
    | _ => none

/-- The directories created, in order: path and mode of every `mkdirAll`
event. -/
def mkdirCalls (tr : Trace) : List (GoString × Nat) :=
  tr.filterMap fun ev =>
    match ev with
    | Event.mkdirAll path perm _ => some (path, perm)
    | _ => none

/-- Everything written to standard output by the process itself, in order. -/
def stdoutText (tr : Trace) : GoString :=
  tr.flatMap fun ev =>
    match ev with
    | Event.stdout text => text
    | _ => []

/-- The requests sent, in order: the URL of every `httpGet` event. -/
def requestURLs (tr : Trace) : List GoString :=
  tr.filterMap fun ev =>
    match ev with
    | Event.httpGet url _ _ => some url
    | _ => none

/-- The destination of the clone of a project (line 153). -/
def destination (cfg : Settings) (project : Project) : GoString :=
  filepathJoin cfg.CloneDir project.PathWithNamespace

/-- The clone command of a project whose URL has at least 8 bytes (lines 159
and 162): the program name and its arguments. -/
def cloneCommand (cfg : Settings) (project : Project) : GoString × List GoString :=
  (go "git", [go "clone",
    go "https://" ++ cfg.PrivateToken ++ go "@" ++ project.HTTPURLToRepo.drop 8,
    destination cfg project])

/-- The directory creation of a project (line 155): path and mode. -/
def mkdirCall (cfg : Settings) (project : Project) : GoString × Nat :=
  (filepathDir (destination cfg project), 0o755)

/-- The events one completed iteration of the loop appends, given the outcome
of the subprocess. -/
def iteration (cfg : Settings) (project : Project) (r : GoError) : Trace :=
  [Event.mkdirAll (filepathDir (destination cfg project)) 0o755 none,
   Event.stdout (cloningLine project (destination cfg project)),
   Event.exec (go "git") (cloneCommand cfg project).2 r]
  ++ (match r with
      | some err => [Event.stdout (failedLine project err)]
      | none => [])
  ++ [Event.stdout (go "\n")]

/-! ## Concrete worlds and inputs used as examples -/

/-- A configuration: token `abc123`, clone directory `/x`, pages of two. -/
def demoCfg : Settings :=
  { GitLabURL := go "https://gitlab.example.com", GroupID := go "1",
    PrivateToken := go "abc123", CloneDir := go "/x", PerPage := 2 }

/-- The project of the example of the specification. -/
def demoProject : Project :=
  { HTTPURLToRepo := go "https://gitlab.example.com/group/repo.git",
    Name := go "repo", PathWithNamespace := go "group/sub/repo" }

/-- A second project, directly under `group`. -/
def toolProject : Project :=
  { HTTPURLToRepo := go "https://gitlab.example.com/group/tool.git",
    Name := go "tool", PathWithNamespace := go "group/tool" }

/-- A descriptor whose clone URL is empty. -/
def blankProject : Project :=
  { HTTPURLToRepo := go "", Name := go "blank", PathWithNamespace := go "group/blank" }

/-- A world in which every call succeeds, the server lists nothing and there
is no readable configuration file. -/
def emptyWorld : World :=
  { stat := fun _ _ => StatResult.found
    parseConfig := fun _ _ => ParseResult.failed (go "EOF")
    httpGet := fun _ _ _ => HttpResult.response ⟨200, go "200 OK", go "[]", none⟩
    unmarshalProjects := fun _ => Except.ok []
    unmarshalSubgroups := fun _ => Except.ok []
    mkdirAll := fun _ _ _ => none
    run := fun _ _ _ => none }

/-- The world of `emptyWorld`, except that every subprocess fails. -/
def brokenGitWorld : World :=
  { emptyWorld with run := fun _ _ _ => some (go "exit status 128") }

/-- The world of `emptyWorld`, except that `/x/group` cannot be created. -/
def readOnlyWorld : World :=
  { emptyWorld with
    mkdirAll := fun _ path _ =>
      if path = go "/x/group" then some (go "mkdir /x/group: permission denied") else none }

/-! ## Worlds that serve a group hierarchy -/

/-- The world serves the project listing of a group as the given pages: the
request for page `k + 1` is answered 200 OK with a body that decodes to
`pages[k]`, and the request after the last page with one that decodes to the
empty list. -/
def ServesPages (w : World) (cfg : Settings) (groupID : GoString)
    (pages : List (List Project)) : Prop :=
  ∀ (h : Trace) (k : Nat), k ≤ pages.length →
    ∃ resp, w.httpGet h (projectsURL cfg groupID (k + 1)) cfg.PrivateToken
        = HttpResult.response resp ∧
      resp.StatusCode = 200 ∧ resp.ReadErr = none ∧
      w.unmarshalProjects resp.Body = Except.ok (pages.getD k [])

/-- The world serves the subgroup listing of a group: the request is answered
200 OK with a body that decodes to `subs`. -/
def ServesSubgroups (w : World) (cfg : Settings) (groupID : GoString)
    (subs : List Subgroup) : Prop :=
  ∀ h : Trace,
    ∃ resp, w.httpGet h (subgroupsURL cfg groupID) cfg.PrivateToken
        = HttpResult.response resp ∧
      resp.StatusCode = 200 ∧ resp.ReadErr = none ∧
      w.unmarshalSubgroups resp.Body = Except.ok subs

/-- A group hierarchy served by the world with every request succeeding, and
the projects below each group: a group has non-empty pages of direct projects,
a list of subgroups, and below each subgroup again a hierarchy. -/
inductive Hierarchy (w : World) (cfg : Settings) : GoString → List Project → Prop where
  | node (groupID : GoString) (pages : List (List Project)) (subs : List Subgroup)
      (below : Subgroup → List Project) :
      (∀ pg ∈ pages, pg ≠ []) →
      ServesPages w cfg groupID pages →
      ServesSubgroups w cfg groupID subs →
      (∀ s ∈ subs, Hierarchy w cfg (itoa s.ID) (below s)) →
      Hierarchy w cfg groupID (pages.flatten ++ (subs.map below).flatten)

/-- The error `sendRequest` makes of a response whose status is not 200. -/
def statusError (resp : Response) : GoString :=
  go "HTTP request failed with status " ++ resp.Status

/-- No request among the events was answered with a status other than 200. -/
def NoFailure (new : Trace) : Prop :=
  ∀ url token resp, Event.httpGet url token (HttpResult.response resp) ∈ new →
    resp.StatusCode = 200

/-- What a listing function owes to its trace: a request answered with a
status other than 200 is the last event and makes the function return the nil
list with the status error; and an error never comes with a list. -/
def AbortsOnFailure (r : Listing) (new : Trace) : Prop :=
  (∀ url token resp, Event.httpGet url token (HttpResult.response resp) ∈ new →
    resp.StatusCode ≠ 200 →
      r = some ([], some (statusError resp)) ∧
      ∃ pre, new = pre ++ [Event.httpGet url token (HttpResult.response resp)]) ∧
  (∀ ps err, r = some (ps, some err) → ps = [])

/-- A third project. -/
def libProject : Project :=
  { HTTPURLToRepo := go "https://gitlab.example.com/group/lib.git",
    Name := go "lib", PathWithNamespace := go "group/lib" }

/-- A fourth project. -/
def appProject : Project :=
  { HTTPURLToRepo := go "https://gitlab.example.com/group/app.git",
    Name := go "app", PathWithNamespace := go "group/app" }

/-- A response 200 OK with a readable body. -/
def okResponse (body : GoString) : HttpResult :=
  HttpResult.response
    { StatusCode := 200, Status := go "200 OK", Body := body, ReadErr := none }

/-- A server with one group `1` holding three projects on pages of two and one
subgroup `2` holding one project. -/
def treeWorld : World :=
  { emptyWorld with
    httpGet := fun _ url _ =>
      if url = go "https://gitlab.example.com/api/v4/groups/1/projects?per_page=2&page=1" then
        okResponse (go "root page 1")
      else if url = go "https://gitlab.example.com/api/v4/groups/1/projects?per_page=2&page=2" then
        okResponse (go "root page 2")
      else if url = go "https://gitlab.example.com/api/v4/groups/1/subgroups" then
        okResponse (go "root subgroups")
      else if url = go "https://gitlab.example.com/api/v4/groups/2/projects?per_page=2&page=1" then
        okResponse (go "sub page 1")
      else okResponse (go "[]")
    unmarshalProjects := fun body =>
      if body = go "root page 1" then Except.ok [toolProject, libProject]
      else if body = go "root page 2" then Except.ok [appProject]
      else if body = go "sub page 1" then Except.ok [demoProject]
      else Except.ok []
    unmarshalSubgroups := fun body =>
      if body = go "root subgroups" then Except.ok [{ ID := 2, Path := go "sub" }]
      else Except.ok [] }

/-- The server of `treeWorld`, except that the second page of the root group is
answered 500. -/
def flakyWorld : World :=
  { treeWorld with
    httpGet := fun h url token =>
      if url = go "https://gitlab.example.com/api/v4/groups/1/projects?per_page=2&page=2" then
        HttpResult.response
          { StatusCode := 500, Status := go "500 Internal Server Error", Body := [],
            ReadErr := none }
      else treeWorld.httpGet h url token }

/-- The pages of the root group of `treeWorld`. -/
def rootPages : List (List Project) := [[toolProject, libProject], [appProject]]

/-- The subgroups of the root group of `treeWorld`. -/
def rootSubgroups : List Subgroup := [{ ID := 2, Path := go "sub" }]

/-- The settings `cleanenv.ReadConfig` leaves in a zero-valued struct after
decoding a file: the value of each key present, the zero value otherwise. -/
def Settings.ofFile (f : ConfigFile) : Settings :=
  { GitLabURL := f.gitlab_url.getD []
    GroupID := f.group_id.getD []
    PrivateToken := f.token.getD []
    CloneDir := f.clone_dir.getD []
    PerPage := f.per_page.getD 0 }

/-- A well-formed configuration file that lacks the key `per_page`. -/
def fileWithoutPerPage : ConfigFile :=
  { gitlab_url := some (go "https://gitlab.example.com"), group_id := some (go "1"),
    token := some (go "abc123"), clone_dir := some (go "/x"), per_page := none }

/-- The world of `treeWorld` with a configuration file that lacks `per_page`. -/
def incompleteConfigWorld : World :=
  { treeWorld with parseConfig := fun _ _ => ParseResult.parsed fileWithoutPerPage }

/-- The world of `treeWorld` without a configuration file. -/
def noConfigWorld : World :=
  { treeWorld with stat := fun _ _ => StatResult.notExist }

/-! ## Theorems -/

theorem go_https_length : (go "https://").length = 8 := by decide

@[simp] theorem execCalls_nil : execCalls [] = [] := rfl

@[simp] theorem execCalls_append (a b : Trace) :
    execCalls (a ++ b) = execCalls a ++ execCalls b := by
  simp [execCalls, List.filterMap_append]

@[simp] theorem mkdirCalls_nil : mkdirCalls [] = [] := rfl

@[simp] theorem mkdirCalls_append (a b : Trace) :
    mkdirCalls (a ++ b) = mkdirCalls a ++ mkdirCalls b := by
  simp [mkdirCalls, List.filterMap_append]

@[simp] theorem stdoutText_append (a b : Trace) :
    stdoutText (a ++ b) = stdoutText a ++ stdoutText b := by
  simp [stdoutText, List.flatMap_append]

theorem addTokenToURL_of_le (repoURL token : GoString) (h : 8 ≤ repoURL.length) :
    addTokenToURL repoURL token
      = Except.ok (go "https://" ++ token ++ go "@" ++ repoURL.drop 8) := by
  unfold addTokenToURL
  rw [if_neg (by omega)]

theorem addTokenToURL_of_lt (repoURL token : GoString) (h : repoURL.length < 8) :
    addTokenToURL repoURL token
      = Except.error (go "runtime error: slice bounds out of range [8:"
          ++ itoa (repoURL.length : Int) ++ go "]") := by
  unfold addTokenToURL
  rw [if_pos h]

/-- The loop stops with the error of a failing directory creation. -/
theorem cloneProjects_mkdir_failed (w : World) (cfg : Settings) (p : Project)
    (rest : List Project) (tr : Trace) (e : GoString)
    (h : w.mkdirAll tr (filepathDir (destination cfg p)) 0o755 = some e) :
    cloneProjects w cfg (p :: rest) tr
      = (Except.ok (some e),
          tr ++ [Event.mkdirAll (filepathDir (destination cfg p)) 0o755 (some e)]) := by
  simp only [cloneProjects, destination] at h ⊢
  rw [h]

/-- The loop panics on a URL of fewer than 8 bytes, after creating the
directory. -/
theorem cloneProjects_short_url (w : World) (cfg : Settings) (p : Project)
    (rest : List Project) (tr : Trace)
    (h : w.mkdirAll tr (filepathDir (destination cfg p)) 0o755 = none)
    (hlen : p.HTTPURLToRepo.length < 8) :
    cloneProjects w cfg (p :: rest) tr
      = (Except.error (go "runtime error: slice bounds out of range [8:"
            ++ itoa (p.HTTPURLToRepo.length : Int) ++ go "]"),
          tr ++ [Event.mkdirAll (filepathDir (destination cfg p)) 0o755 none]) := by
  simp only [cloneProjects, destination] at h ⊢
  rw [h, addTokenToURL_of_lt _ _ hlen]

/-- One completed iteration: the loop goes on with the rest of the list,
whatever the outcome of the subprocess. -/
theorem cloneProjects_step (w : World) (cfg : Settings) (p : Project)
    (rest : List Project) (tr : Trace)
    (h : w.mkdirAll tr (filepathDir (destination cfg p)) 0o755 = none)
    (hlen : 8 ≤ p.HTTPURLToRepo.length) :
    ∃ r : GoError,
      r = w.run (tr ++ [Event.mkdirAll (filepathDir (destination cfg p)) 0o755 none,
                Event.stdout (cloningLine p (destination cfg p))])
            (go "git") (cloneCommand cfg p).2 ∧
      cloneProjects w cfg (p :: rest) tr
        = cloneProjects w cfg rest (tr ++ iteration cfg p r) := by
  refine ⟨_, rfl, ?_⟩
  simp only [destination] at h
  conv_lhs => simp only [cloneProjects]
  rw [h, addTokenToURL_of_le _ _ hlen]
  simp only [iteration, cloneCommand, destination, List.append_assoc, List.cons_append,
    List.nil_append, List.singleton_append]
  cases w.run _ _ _ <;> simp

@[simp] theorem execCalls_iteration (cfg : Settings) (p : Project) (r : GoError) :
    execCalls (iteration cfg p r) = [cloneCommand cfg p] := by
  cases r <;> rfl

@[simp] theorem mkdirCalls_iteration (cfg : Settings) (p : Project) (r : GoError) :
    mkdirCalls (iteration cfg p r) = [mkdirCall cfg p] := by
  cases r <;> rfl

/-- Shape of the trace of `cloneProjects`: the commands run are the clone
commands of the first `k` projects, the directories created those of the first
`m` projects, where `m` is `k` or `k + 1`; a nil result means `k` is the whole
list. -/
theorem cloneProjects_trace (w : World) (cfg : Settings) :
    ∀ (projects : List Project) (tr : Trace), ∃ (new : Trace) (k m : Nat),
      (cloneProjects w cfg projects tr).2 = tr ++ new ∧
      k ≤ m ∧ m ≤ k + 1 ∧ m ≤ projects.length ∧
      execCalls new = (projects.take k).map (cloneCommand cfg) ∧
      mkdirCalls new = (projects.take m).map (mkdirCall cfg) ∧
      ((cloneProjects w cfg projects tr).1 = Except.ok none → k = projects.length) := by
  intro projects
  induction projects with
  | nil =>
    intro tr
    exact ⟨[], 0, 0, by simp [cloneProjects]⟩
  | cons p rest ih =>
    intro tr
    cases hmk : w.mkdirAll tr (filepathDir (destination cfg p)) 0o755 with
    | some e =>
      rw [cloneProjects_mkdir_failed w cfg p rest tr e hmk]
      exact ⟨_, 0, 1, rfl, by omega, by omega, by simp, by simp [execCalls], by simp [mkdirCalls, mkdirCall], by simp⟩
    | none =>
      by_cases hlen : p.HTTPURLToRepo.length < 8
      · rw [cloneProjects_short_url w cfg p rest tr hmk hlen]
        exact ⟨_, 0, 1, rfl, by omega, by omega, by simp, by simp [execCalls], by simp [mkdirCalls, mkdirCall], by simp⟩
      · obtain ⟨r, -, hstep⟩ := cloneProjects_step w cfg p rest tr hmk (by omega)
        obtain ⟨new, k, m, htr, hkm, hmk1, hm, hexec, hmkd, hnil⟩ := ih (tr ++ iteration cfg p r)
        rw [hstep]
        refine ⟨iteration cfg p r ++ new, k + 1, m + 1, ?_, by omega, by omega, by simp; omega, ?_, ?_, ?_⟩
        · rw [htr, List.append_assoc]
        · simp [hexec]
        · simp [hmkd]
        · intro h
          simp [hnil h]

/-- The loop over a concatenation: when the first part returns nil the second
part runs from the history reached, otherwise the outcome of the first part is
the outcome of the whole. -/
theorem cloneProjects_append (w : World) (cfg : Settings) :
    ∀ (pre post : List Project) (tr : Trace),
      cloneProjects w cfg (pre ++ post) tr =
        if (cloneProjects w cfg pre tr).1 = Except.ok none then
          cloneProjects w cfg post (cloneProjects w cfg pre tr).2
        else cloneProjects w cfg pre tr := by
  intro pre
  induction pre with
  | nil => intro post tr; simp [cloneProjects]
  | cons p rest ih =>
    intro post tr
    cases hmk : w.mkdirAll tr (filepathDir (destination cfg p)) 0o755 with
    | some e =>
      rw [List.cons_append, cloneProjects_mkdir_failed w cfg p _ tr e hmk,
        cloneProjects_mkdir_failed w cfg p _ tr e hmk]
      simp
    | none =>
      by_cases hlen : p.HTTPURLToRepo.length < 8
      · rw [List.cons_append, cloneProjects_short_url w cfg p _ tr hmk hlen,
          cloneProjects_short_url w cfg p _ tr hmk hlen]
        simp
      · obtain ⟨r, hr, hstep⟩ := cloneProjects_step w cfg p (rest ++ post) tr hmk (by omega)
        obtain ⟨r2, hr2, hstep2⟩ := cloneProjects_step w cfg p rest tr hmk (by omega)
        subst hr hr2
        rw [List.cons_append, hstep, hstep2, ih]

/-- Claim C4, as amended.  When every directory creation succeeds and every
clone URL has at least 8 bytes, then for every outcome of the subprocesses
`cloneProjects` returns nil and runs the clone command exactly once per
descriptor, in list order. -/
theorem cloneProjects_clone_failures_isolated (w : World) (cfg : Settings)
    (projects : List Project) (tr : Trace)
    (hmk : ∀ (h : Trace) (path : GoString) (perm : Nat), w.mkdirAll h path perm = none)
    (hurl : ∀ p ∈ projects, 8 ≤ p.HTTPURLToRepo.length) :
    (cloneProjects w cfg projects tr).1 = Except.ok none ∧
    ∃ new, (cloneProjects w cfg projects tr).2 = tr ++ new ∧
      execCalls new = projects.map (cloneCommand cfg) := by
  induction projects generalizing tr with
  | nil => exact ⟨rfl, [], by simp [cloneProjects]⟩
  | cons p rest ih =>
    obtain ⟨r, -, hstep⟩ := cloneProjects_step w cfg p rest tr (hmk _ _ _)
      (hurl p (List.mem_cons_self _ _))
    obtain ⟨hnil, new, htr, hexec⟩ :=
      ih (tr ++ iteration cfg p r) (fun q hq => hurl q (List.mem_cons_of_mem _ hq))
    rw [hstep]
    exact ⟨hnil, iteration cfg p r ++ new, by rw [htr, List.append_assoc], by simp [hexec]⟩

/-- Instance of C4 as amended: two descriptors, every clone failing. -/
theorem cloneProjects_clone_failures_isolated_witness :
    (∀ (h : Trace) (path : GoString) (perm : Nat), brokenGitWorld.mkdirAll h path perm = none) ∧
    (∀ p ∈ [demoProject, toolProject], 8 ≤ p.HTTPURLToRepo.length) ∧
    (cloneProjects brokenGitWorld demoCfg [demoProject, toolProject] []).1 = Except.ok none ∧
    ∃ new, (cloneProjects brokenGitWorld demoCfg [demoProject, toolProject] []).2 = [] ++ new ∧
      execCalls new = [demoProject, toolProject].map (cloneCommand demoCfg) :=
  ⟨fun _ _ _ => rfl, by decide,
   cloneProjects_clone_failures_isolated brokenGitWorld demoCfg [demoProject, toolProject] []
    (fun _ _ _ => rfl) (by decide)⟩

/-- Claim C4 fails as stated: on a descriptor with an empty clone URL the loop
panics before any clone command is run, and on a failing directory creation it
returns the error without running any clone command. -/
theorem cloneProjects_blank_url_aborts :
    (cloneProjects emptyWorld demoCfg [blankProject, demoProject] []).1
        = Except.error (go "runtime error: slice bounds out of range [8:0]") ∧
    execCalls (cloneProjects emptyWorld demoCfg [blankProject, demoProject] []).2 = [] ∧
    (cloneProjects readOnlyWorld demoCfg [toolProject, demoProject] []).1
        = Except.ok (some (go "mkdir /x/group: permission denied")) ∧
    execCalls (cloneProjects readOnlyWorld demoCfg [toolProject, demoProject] []).2 = [] := by
  decide

/-- Claim C5.  On a clone URL of the form `https://` followed by `rest`,
`addTokenToURL` returns `https://`, the token, `@` and `rest`; on the URL and
token of the specification it returns
`https://abc123@gitlab.example.com/group/repo.git`. -/
theorem addTokenToURL_https (token rest : GoString) :
    addTokenToURL (go "https://" ++ rest) token
      = Except.ok (go "https://" ++ token ++ go "@" ++ rest) ∧
    addTokenToURL (go "https://gitlab.example.com/group/repo.git") (go "abc123")
      = Except.ok (go "https://abc123@gitlab.example.com/group/repo.git") := by
  constructor
  · rw [addTokenToURL_of_le _ _ (by simp [go_https_length])]
    rw [List.drop_append_of_le_length (by simp [go_https_length])]
    simp [← go_https_length]
  · decide

/-- Claim C9 fails as stated: on the 7-byte URL `http://` the slice `repoURL[8:]`
panics, so `addTokenToURL` does not return a string for every URL. -/
theorem addTokenToURL_short_panics :
    addTokenToURL (go "http://") (go "abc123")
      = Except.error (go "runtime error: slice bounds out of range [8:7]") ∧
    ¬ ∀ url token : GoString,
        addTokenToURL url token = Except.ok (go "https://" ++ token ++ go "@" ++ url.drop 8) := by
  refine ⟨by decide, fun h => ?_⟩
  have := h (go "http://") (go "abc123")
  revert this
  decide

/-- Claim C9, as amended.  On every clone URL of at least 8 bytes, whatever its
scheme, and every token, `addTokenToURL` returns `https://`, the token, `@` and
the URL without its first 8 bytes, and does not fail. -/
theorem addTokenToURL_total_from_8 (url token : GoString) (h : 8 ≤ url.length) :
    addTokenToURL url token = Except.ok (go "https://" ++ token ++ go "@" ++ url.drop 8) :=
  addTokenToURL_of_le url token h

/-- Instance of C9 as amended: a URL with another scheme. -/
theorem addTokenToURL_total_from_8_witness :
    8 ≤ (go "ssh://git@host/repo.git").length ∧
    addTokenToURL (go "ssh://git@host/repo.git") (go "abc123")
      = Except.ok (go "https://" ++ go "abc123" ++ go "@"
          ++ (go "ssh://git@host/repo.git").drop 8) :=
  ⟨by decide, addTokenToURL_total_from_8 _ _ (by decide)⟩

/-- Claim C6.  In every run of `cloneProjects` the commands run are those of
the first `k` descriptors and the directories created those of the first `m`
descriptors (`m` is `k` or `k + 1`, and `k` is the whole list when nil is
returned); the destination passed to the clone command of a descriptor is
`filepathJoin cfg.CloneDir project.PathWithNamespace` and the directory created
for it is the parent of that path.  For `/x` and `group/sub/repo` the
destination is `/x/group/sub/repo`. -/
theorem cloneProjects_destination (w : World) (cfg : Settings) (projects : List Project)
    (tr : Trace) :
    (∃ (new : Trace) (k m : Nat),
      (cloneProjects w cfg projects tr).2 = tr ++ new ∧
      k ≤ m ∧ m ≤ k + 1 ∧ m ≤ projects.length ∧
      ((cloneProjects w cfg projects tr).1 = Except.ok none → k = projects.length) ∧
      (execCalls new).map (fun c => c.2.drop 2)
        = (projects.take k).map
            (fun p => [filepathJoin cfg.CloneDir p.PathWithNamespace]) ∧
      (mkdirCalls new).map Prod.fst
        = (projects.take m).map
            (fun p => filepathDir (filepathJoin cfg.CloneDir p.PathWithNamespace))) ∧
    filepathJoin (go "/x") (go "group/sub/repo") = go "/x/group/sub/repo" := by
  refine ⟨?_, by decide⟩
  obtain ⟨new, k, m, htr, hkm, hmk1, hm, hexec, hmkd, hnil⟩ := cloneProjects_trace w cfg projects tr
  refine ⟨new, k, m, htr, hkm, hmk1, hm, hnil, ?_, ?_⟩
  · rw [hexec, List.map_map]
    rfl
  · rw [hmkd, List.map_map]
    rfl

/-- Claim C10.  When the loop reaches the descriptor at position `i` (the
descriptors before it were processed and nil would have been returned) and the
creation of its parent directory fails, `cloneProjects` returns that error, the
failed creation is the last event, and the clone command has been run for
exactly the descriptors before position `i`, in order. -/
theorem cloneProjects_mkdir_failure_aborts (w : World) (cfg : Settings)
    (projects : List Project) (i : Nat) (e : GoString) (tr : Trace)
    (hi : i < projects.length)
    (hpre : (cloneProjects w cfg (projects.take i) tr).1 = Except.ok none)
    (hfail : w.mkdirAll (cloneProjects w cfg (projects.take i) tr).2
        (filepathDir (filepathJoin cfg.CloneDir projects[i].PathWithNamespace)) 0o755 = some e) :
    (cloneProjects w cfg projects tr).1 = Except.ok (some e) ∧
    ∃ new, (cloneProjects w cfg projects tr).2
        = tr ++ new ++ [Event.mkdirAll
            (filepathDir (filepathJoin cfg.CloneDir projects[i].PathWithNamespace)) 0o755 (some e)] ∧
      execCalls new = (projects.take i).map (cloneCommand cfg) := by
  have hsplit : projects = projects.take i ++ projects[i] :: projects.drop (i + 1) := by
    rw [← List.drop_eq_getElem_cons hi, List.take_append_drop]
  obtain ⟨new, k, m, htr, -, -, -, hexec, -, hnil⟩ :=
    cloneProjects_trace w cfg (projects.take i) tr
  have hk : k = i := by
    have := hnil hpre
    rw [List.length_take] at this
    omega
  have hrun : cloneProjects w cfg projects tr
      = cloneProjects w cfg (projects[i] :: projects.drop (i + 1))
          (cloneProjects w cfg (projects.take i) tr).2 := by
    conv_lhs => rw [hsplit]
    rw [cloneProjects_append, if_pos hpre]
  rw [hrun, cloneProjects_mkdir_failed w cfg _ _ _ e hfail]
  refine ⟨rfl, new, ?_, ?_⟩
  · simp only [htr, List.append_assoc, destination]
  · rw [hexec, hk]
    simp

/-- Instance of C10: the directory of the second of three descriptors cannot
be created. -/
theorem cloneProjects_mkdir_failure_aborts_witness :
    (cloneProjects readOnlyWorld demoCfg ([demoProject, toolProject, demoProject].take 1) []).1
      = Except.ok none ∧
    (cloneProjects readOnlyWorld demoCfg [demoProject, toolProject, demoProject] []).1
      = Except.ok (some (go "mkdir /x/group: permission denied")) ∧
    ∃ new, (cloneProjects readOnlyWorld demoCfg [demoProject, toolProject, demoProject] []).2
        = [] ++ new ++ [Event.mkdirAll (filepathDir (filepathJoin demoCfg.CloneDir
            ([demoProject, toolProject, demoProject][1]).PathWithNamespace)) 0o755
            (some (go "mkdir /x/group: permission denied"))] ∧
      execCalls new = ([demoProject, toolProject, demoProject].take 1).map (cloneCommand demoCfg) :=
  ⟨by decide,
   cloneProjects_mkdir_failure_aborts readOnlyWorld demoCfg
    [demoProject, toolProject, demoProject] 1 (go "mkdir /x/group: permission denied") []
    (by decide) (by decide) (by decide)⟩

/-- Claim C8 fails as stated: in this run the only text written before the clone
command is `Cloning repo into /x/group/sub/repo...`; neither the authenticated
URL nor the token occurs in anything `cloneProjects` writes to standard output. -/
theorem cloneProjects_stdout_omits_token :
    (cloneProjects emptyWorld demoCfg [demoProject] []).2 =
      [Event.mkdirAll (go "/x/group/sub") 0o755 none,
       Event.stdout (go "Cloning repo into /x/group/sub/repo...\n"),
       Event.exec (go "git") [go "clone",
         go "https://abc123@gitlab.example.com/group/repo.git", go "/x/group/sub/repo"] none,
       Event.stdout (go "\n")] ∧
    addTokenToURL demoProject.HTTPURLToRepo demoCfg.PrivateToken
      = Except.ok (go "https://abc123@gitlab.example.com/group/repo.git") ∧
    ¬ (go "https://abc123@gitlab.example.com/group/repo.git"
        <:+: stdoutText (cloneProjects emptyWorld demoCfg [demoProject] []).2) ∧
    ¬ (demoCfg.PrivateToken
        <:+: stdoutText (cloneProjects emptyWorld demoCfg [demoProject] []).2) := by
  decide

/-- Claim C8, as amended.  For every descriptor the loop reaches, whose
directory creation succeeds and whose URL has at least 8 bytes, the events of
its iteration start with the directory creation, then the line
`Cloning <Name> into <destination>...` on standard output, then the clone
command; the line is built from the name and the destination only, and the
authenticated URL made by `addTokenToURL` is an argument of the command. -/
theorem cloneProjects_stdout_before_clone (w : World) (cfg : Settings)
    (pre : List Project) (p : Project) (post : List Project) (tr : Trace)
    (hpre : (cloneProjects w cfg pre tr).1 = Except.ok none)
    (hmk : w.mkdirAll (cloneProjects w cfg pre tr).2
        (filepathDir (filepathJoin cfg.CloneDir p.PathWithNamespace)) 0o755 = none)
    (hlen : 8 ≤ p.HTTPURLToRepo.length) :
    ∃ (authURL : GoString) (r : GoError) (rest : Trace),
      addTokenToURL p.HTTPURLToRepo cfg.PrivateToken = Except.ok authURL ∧
      (cloneProjects w cfg (pre ++ p :: post) tr).2 =
        (cloneProjects w cfg pre tr).2 ++
          [Event.mkdirAll (filepathDir (filepathJoin cfg.CloneDir p.PathWithNamespace)) 0o755 none,
           Event.stdout (go "Cloning " ++ p.Name ++ go " into "
             ++ filepathJoin cfg.CloneDir p.PathWithNamespace ++ go "...\n"),
           Event.exec (go "git")
             [go "clone", authURL, filepathJoin cfg.CloneDir p.PathWithNamespace] r]
          ++ rest := by
  obtain ⟨r, -, hstep⟩ := cloneProjects_step w cfg p post _ hmk hlen
  obtain ⟨new, -, -, htr, -⟩ :=
    cloneProjects_trace w cfg post ((cloneProjects w cfg pre tr).2 ++ iteration cfg p r)
  refine ⟨_, r, (iteration cfg p r).drop 3 ++ new, addTokenToURL_of_le _ _ hlen, ?_⟩
  rw [cloneProjects_append, if_pos hpre, hstep, htr]
  simp [iteration, cloneCommand, destination, cloningLine]

/-- Instance of C8 as amended: the second of three descriptors. -/
theorem cloneProjects_stdout_before_clone_witness :
    (cloneProjects emptyWorld demoCfg [toolProject] []).1 = Except.ok none ∧
    8 ≤ demoProject.HTTPURLToRepo.length ∧
    ∃ (authURL : GoString) (r : GoError) (rest : Trace),
      addTokenToURL demoProject.HTTPURLToRepo demoCfg.PrivateToken = Except.ok authURL ∧
      (cloneProjects emptyWorld demoCfg ([toolProject] ++ demoProject :: [toolProject]) []).2 =
        (cloneProjects emptyWorld demoCfg [toolProject] []).2 ++
          [Event.mkdirAll
            (filepathDir (filepathJoin demoCfg.CloneDir demoProject.PathWithNamespace)) 0o755 none,
           Event.stdout (go "Cloning " ++ demoProject.Name ++ go " into "
             ++ filepathJoin demoCfg.CloneDir demoProject.PathWithNamespace ++ go "...\n"),
           Event.exec (go "git")
             [go "clone", authURL,
              filepathJoin demoCfg.CloneDir demoProject.PathWithNamespace] r]
          ++ rest :=
  ⟨by decide, by decide,
   cloneProjects_stdout_before_clone emptyWorld demoCfg [toolProject] demoProject [toolProject] []
    (by decide) rfl (by decide)⟩

@[simp] theorem requestURLs_append (a b : Trace) :
    requestURLs (a ++ b) = requestURLs a ++ requestURLs b := by
  simp [requestURLs, List.filterMap_append]

/-- A request answered 200 OK with a readable body. -/
theorem sendRequest_ok (w : World) (cfg : Settings) (url : GoString) (tr : Trace)
    (resp : Response)
    (h : w.httpGet tr url cfg.PrivateToken = HttpResult.response resp)
    (hs : resp.StatusCode = 200) (hr : resp.ReadErr = none) :
    sendRequest w cfg url tr
      = ((resp.Body, none), tr ++ [Event.httpGet url cfg.PrivateToken (HttpResult.response resp)]) := by
  simp [sendRequest, h, hs, hr]

/-- The page loop on a world that serves the pages from number `j + 1` on. -/
theorem getProjectsLoop_pages (w : World) (cfg : Settings) (groupID : GoString) :
    ∀ (pages : List (List Project)) (acc : List Project) (j fuel : Nat) (tr : Trace),
      (∀ pg ∈ pages, pg ≠ []) →
      (∀ (h : Trace) (k : Nat), k ≤ pages.length →
        ∃ resp, w.httpGet h (projectsURL cfg groupID (j + k + 1)) cfg.PrivateToken
            = HttpResult.response resp ∧
          resp.StatusCode = 200 ∧ resp.ReadErr = none ∧
          w.unmarshalProjects resp.Body = Except.ok (pages.getD k [])) →
      pages.length < fuel →
      ∃ new, getProjectsLoop w cfg groupID fuel acc (j + 1) tr
          = (some (acc ++ pages.flatten, none), tr ++ new) ∧
        requestURLs new
          = (List.range' (j + 1) (pages.length + 1)).map (projectsURL cfg groupID) := by
  intro pages
  induction pages with
  | nil =>
    intro acc j fuel tr _ hserve hfuel
    have hz := hserve tr 0 (Nat.le_refl _)
    rw [Nat.add_zero] at hz
    obtain ⟨resp, hget, hs, hr, hdec⟩ := hz
    obtain ⟨n, rfl⟩ : ∃ n, fuel = n + 1 := ⟨fuel - 1, by simp at hfuel; omega⟩
    refine ⟨[Event.httpGet (projectsURL cfg groupID (j + 1)) cfg.PrivateToken
      (HttpResult.response resp)], ?_, ?_⟩
    · simp only [getProjectsLoop]
      rw [sendRequest_ok w cfg _ tr resp hget hs hr]
      simp at hdec
      simp [hdec]
    · simp [requestURLs]
  | cons pg rest ih =>
    intro acc j fuel tr hne hserve hfuel
    have hz := hserve tr 0 (Nat.zero_le _)
    rw [Nat.add_zero] at hz
    obtain ⟨resp, hget, hs, hr, hdec⟩ := hz
    obtain ⟨n, rfl⟩ : ∃ n, fuel = n + 1 := ⟨fuel - 1, by simp at hfuel; omega⟩
    have hpg : pg.length ≠ 0 := by
      have := hne pg (List.mem_cons_self _ _)
      simpa [List.length_eq_zero] using this
    obtain ⟨new, hrun, hurls⟩ := ih (acc ++ pg) (j + 1) n
      (tr ++ [Event.httpGet (projectsURL cfg groupID (j + 1)) cfg.PrivateToken
        (HttpResult.response resp)])
      (fun q hq => hne q (List.mem_cons_of_mem _ hq))
      (fun h k hk => by
        have := hserve h (k + 1) (by simp; omega)
        simpa [Nat.add_assoc, Nat.add_comm 1 k] using this)
      (by simp at hfuel; omega)
    refine ⟨Event.httpGet (projectsURL cfg groupID (j + 1)) cfg.PrivateToken
        (HttpResult.response resp) :: new, ?_, ?_⟩
    · simp only [getProjectsLoop]
      rw [sendRequest_ok w cfg _ tr resp hget hs hr]
      simp at hdec
      simp only [hdec, if_neg hpg]
      rw [hrun]
      simp
    · have : requestURLs (Event.httpGet (projectsURL cfg groupID (j + 1)) cfg.PrivateToken
          (HttpResult.response resp) :: new)
          = projectsURL cfg groupID (j + 1) :: requestURLs new := by
        simp [requestURLs]
      rw [this, hurls]
      simp [List.range'_succ]

/-- The function `getProjects` on a world that serves non-empty pages. -/
theorem getProjects_pages (w : World) (cfg : Settings) (groupID : GoString)
    (pages : List (List Project)) (hne : ∀ pg ∈ pages, pg ≠ [])
    (hserve : ServesPages w cfg groupID pages) (fuel : Nat) (hfuel : pages.length < fuel)
    (tr : Trace) :
    ∃ new, getProjects w cfg fuel groupID tr = (some (pages.flatten, none), tr ++ new) ∧
      requestURLs new
        = (List.range' 1 (pages.length + 1)).map (projectsURL cfg groupID) := by
  have := getProjectsLoop_pages w cfg groupID pages [] 0 fuel tr hne
    (fun h k hk => by simpa using hserve h k hk) hfuel
  simpa [getProjects] using this

theorem length_flatten_le (P : Nat) :
    ∀ pages : List (List Project), (∀ pg ∈ pages, pg.length ≤ P) →
      pages.flatten.length ≤ P * pages.length := by
  intro pages
  induction pages with
  | nil => intro _; simp
  | cons pg rest ih =>
    intro h
    have h1 := h pg (List.mem_cons_self _ _)
    have h2 := ih (fun q hq => h q (List.mem_cons_of_mem _ hq))
    simp only [List.flatten_cons, List.length_append, List.length_cons, Nat.mul_succ]
    omega

/-- When `T` items fill exactly `ceil (T / P)` pages of at most `P` items, no
page is empty. -/
theorem pages_nonempty (P : Nat) (pages : List (List Project)) (hP : 1 ≤ P)
    (hsize : ∀ pg ∈ pages, pg.length ≤ P)
    (hcount : pages.length = (pages.flatten.length + P - 1) / P) :
    ∀ pg ∈ pages, pg ≠ [] := by
  intro pg hpg hnil
  subst hnil
  obtain ⟨l1, l2, hsplit⟩ := List.append_of_mem hpg
  have hlen : pages.length = l1.length + l2.length + 1 := by simp [hsplit]; omega
  have hT : pages.flatten.length ≤ P * (l1.length + l2.length) := by
    have := length_flatten_le P (l1 ++ l2) (fun q hq => hsize q (by
      rw [hsplit]
      rcases List.mem_append.mp hq with h | h
      · exact List.mem_append_left _ h
      · exact List.mem_append_right _ (List.mem_cons_of_mem _ h)))
    simpa [hsplit] using this
  have hlt : (pages.flatten.length + P - 1) / P < l1.length + l2.length + 1 := by
    rw [Nat.div_lt_iff_lt_mul (by omega)]
    have : (l1.length + l2.length + 1) * P = P * (l1.length + l2.length) + P := by ring
    omega
  omega

/-- Claim C2.  For every page size `P ≥ 1` and total `T`, when the world serves
`T` items as `ceil (T / P)` pages of at most `P` items followed by an empty
page, `getProjects` returns, with any fuel above the number of pages, exactly
the concatenation of the pages and no error: `T` items, in the order served,
none duplicated or omitted; it requests the pages `1` to `ceil (T / P) + 1`
once each, in order. -/
theorem getProjects_paginated (w : World) (cfg : Settings) (groupID : GoString)
    (P T : Nat) (pages : List (List Project))
    (hP : 1 ≤ P)
    (hT : pages.flatten.length = T)
    (hcount : pages.length = (T + P - 1) / P)
    (hsize : ∀ pg ∈ pages, pg.length ≤ P)
    (hserve : ServesPages w cfg groupID pages) :
    ∀ (fuel : Nat), pages.length < fuel → ∀ tr : Trace,
      (getProjects w cfg fuel groupID tr).1 = some (pages.flatten, none) ∧
      (∃ items, (getProjects w cfg fuel groupID tr).1 = some (items, none) ∧
        items.length = T ∧ (pages.flatten.Nodup → items.Nodup)) ∧
      ∃ new, (getProjects w cfg fuel groupID tr).2 = tr ++ new ∧
        requestURLs new
          = (List.range' 1 ((T + P - 1) / P + 1)).map (projectsURL cfg groupID) := by
  intro fuel hfuel tr
  subst hT
  obtain ⟨new, hrun, hurls⟩ := getProjects_pages w cfg groupID pages
    (pages_nonempty P pages hP hsize hcount) hserve fuel hfuel tr
  rw [hrun]
  exact ⟨rfl, ⟨_, rfl, rfl, id⟩, new, rfl, by rw [hurls, hcount]⟩

/-- The loop over the subgroups when every visit returns its projects. -/
theorem subgroupsLoop_ok (visit : GoString → Trace → Listing × Trace)
    (below : Subgroup → List Project) :
    ∀ (subs : List Subgroup) (acc : List Project) (tr : Trace),
      (∀ s ∈ subs, ∀ t : Trace, (visit (itoa s.ID) t).1 = some (below s, none)) →
      (subgroupsLoop visit subs acc tr).1 = some (acc ++ (subs.map below).flatten, none) := by
  intro subs
  induction subs with
  | nil => intro acc tr _; simp [subgroupsLoop]
  | cons s rest ih =>
    intro acc tr h
    have hs := h s (List.mem_cons_self _ _) tr
    rcases hv : visit (itoa s.ID) tr with ⟨r, tr1⟩
    rw [hv] at hs
    simp only at hs
    subst hs
    simp only [subgroupsLoop, hv]
    rw [ih (acc ++ below s) tr1 (fun q hq => h q (List.mem_cons_of_mem _ hq))]
    simp

/-- Unfolding of `getAllProjects` on a group whose listings are served. -/
theorem getAllProjects_node (w : World) (cfg : Settings) (groupID : GoString)
    (pages : List (List Project)) (subs : List Subgroup) (below : Subgroup → List Project)
    (hne : ∀ pg ∈ pages, pg ≠ [])
    (hpages : ServesPages w cfg groupID pages)
    (hsubs : ServesSubgroups w cfg groupID subs)
    (fuel : Nat) (hfuel : pages.length < fuel)
    (hbelow : ∀ s ∈ subs, ∀ t : Trace,
      (getAllProjects w cfg fuel (itoa s.ID) t).1 = some (below s, none))
    (tr : Trace) :
    (getAllProjects w cfg (fuel + 1) groupID tr).1
      = some (pages.flatten ++ (subs.map below).flatten, none) := by
  obtain ⟨new, hrun, -⟩ := getProjects_pages w cfg groupID pages hne hpages fuel hfuel tr
  obtain ⟨resp, hget, hs, hr, hdec⟩ := hsubs (tr ++ new)
  simp only [getAllProjects, hrun, getSubgroups]
  rw [sendRequest_ok w cfg _ _ resp hget hs hr]
  simp only [hdec]
  exact subgroupsLoop_ok _ below subs _ _ hbelow

theorem uniform_fuel (subs : List Subgroup) (Q : Subgroup → Nat → Prop)
    (h : ∀ s ∈ subs, ∃ N, ∀ fuel, N ≤ fuel → Q s fuel) :
    ∃ N, ∀ s ∈ subs, ∀ fuel, N ≤ fuel → Q s fuel := by
  induction subs with
  | nil => exact ⟨0, fun s hs => by simp at hs⟩
  | cons s rest ih =>
    obtain ⟨N1, h1⟩ := h s (List.mem_cons_self _ _)
    obtain ⟨N2, h2⟩ := ih (fun q hq => h q (List.mem_cons_of_mem _ hq))
    refine ⟨max N1 N2, fun q hq fuel hfuel => ?_⟩
    rcases List.mem_cons.mp hq with rfl | hq
    · exact h1 fuel (le_trans (le_max_left _ _) hfuel)
    · exact h2 q hq fuel (le_trans (le_max_right _ _) hfuel)

/-- On a served hierarchy `getAllProjects` returns, given enough fuel, the
projects of the hierarchy. -/
theorem getAllProjects_hierarchy (w : World) (cfg : Settings) (groupID : GoString)
    (all : List Project) (h : Hierarchy w cfg groupID all) :
    ∃ N, ∀ fuel, N ≤ fuel → ∀ tr : Trace,
      (getAllProjects w cfg fuel groupID tr).1 = some (all, none) := by
  induction h with
  | node groupID pages subs below hne hpages hsubs _ ih =>
    obtain ⟨N, hN⟩ := uniform_fuel subs
      (fun s fuel => ∀ tr : Trace,
        (getAllProjects w cfg fuel (itoa s.ID) tr).1 = some (below s, none)) ih
    refine ⟨max (pages.length + 1) N + 1, fun fuel hfuel tr => ?_⟩
    have hl := le_max_left (pages.length + 1) N
    have hr := le_max_right (pages.length + 1) N
    obtain ⟨f, rfl⟩ : ∃ f, fuel = f + 1 := ⟨fuel - 1, by omega⟩
    have h1 : pages.length + 1 ≤ f := by omega
    have h2 : N ≤ f := by omega
    exact getAllProjects_node w cfg groupID pages subs below hne hpages hsubs f (by omega)
      (fun s hs t => hN s hs f h2 t) tr

/-- Claim C1.  On a group whose pages and subgroup listing are served and below
each of whose subgroups lies a served hierarchy, with enough fuel
`getAllProjects` returns the projects `getProjects` returns for the group,
followed by what `getAllProjects` returns for each subgroup, in the order of the
subgroup listing; so the direct projects come first and the projects of an
earlier subgroup before those of a later one. -/
theorem getAllProjects_depth_first (w : World) (cfg : Settings) (groupID : GoString)
    (pages : List (List Project)) (subs : List Subgroup) (below : Subgroup → List Project)
    (hne : ∀ pg ∈ pages, pg ≠ [])
    (hpages : ServesPages w cfg groupID pages)
    (hsubs : ServesSubgroups w cfg groupID subs)
    (hbelow : ∀ s ∈ subs, Hierarchy w cfg (itoa s.ID) (below s)) :
    ∃ N, ∀ fuel, N ≤ fuel → ∀ tr : Trace,
      (getProjects w cfg fuel groupID tr).1 = some (pages.flatten, none) ∧
      (∀ s ∈ subs, (getAllProjects w cfg fuel (itoa s.ID) tr).1 = some (below s, none)) ∧
      (getAllProjects w cfg fuel groupID tr).1
        = some (pages.flatten ++ (subs.map below).flatten, none) ∧
      (∀ (before : List Subgroup) (s : Subgroup) (after : List Subgroup),
        subs = before ++ s :: after →
        (getAllProjects w cfg fuel groupID tr).1
          = some (pages.flatten ++ ((before.map below).flatten ++ (below s
              ++ (after.map below).flatten)), none)) := by
  obtain ⟨N1, h1⟩ := getAllProjects_hierarchy w cfg groupID _
    (Hierarchy.node groupID pages subs below hne hpages hsubs hbelow)
  obtain ⟨N2, h2⟩ := uniform_fuel subs
    (fun s fuel => ∀ tr : Trace,
      (getAllProjects w cfg fuel (itoa s.ID) tr).1 = some (below s, none))
    (fun s hs => getAllProjects_hierarchy w cfg _ _ (hbelow s hs))
  refine ⟨max (pages.length + 1) (max N1 N2), fun fuel hfuel tr => ?_⟩
  have hf0 : pages.length < fuel := by
    have := le_trans (le_max_left _ _) hfuel
    omega
  have hf1 : N1 ≤ fuel := le_trans (le_trans (le_max_left _ _) (le_max_right _ _)) hfuel
  have hf2 : N2 ≤ fuel := le_trans (le_trans (le_max_right _ _) (le_max_right _ _)) hfuel
  obtain ⟨new, hrun, -⟩ := getProjects_pages w cfg groupID pages hne hpages fuel hf0 tr
  refine ⟨by rw [hrun], fun s hs => h2 s hs fuel hf2 tr, h1 fuel hf1 tr, ?_⟩
  intro before s after hsplit
  rw [h1 fuel hf1 tr, hsplit]
  simp

theorem noFailure_nil : NoFailure [] := by
  intro url token resp h
  simp at h

theorem noFailure_append {a b : Trace} (ha : NoFailure a) (hb : NoFailure b) :
    NoFailure (a ++ b) := by
  intro url token resp h
  rcases List.mem_append.mp h with h | h
  · exact ha url token resp h
  · exact hb url token resp h

theorem noFailure_of_ok {ps : List Project} {new : Trace}
    (h : AbortsOnFailure (some (ps, none)) new) : NoFailure new := by
  intro url token resp hmem
  by_contra hs
  have := (h.1 url token resp hmem hs).1
  simp at this

theorem aborts_of_noFailure {r : Listing} {new : Trace} (h : NoFailure new)
    (hnil : ∀ ps err, r = some (ps, some err) → ps = []) : AbortsOnFailure r new :=
  ⟨fun url token resp hmem hs => absurd (h url token resp hmem) hs, hnil⟩

theorem aborts_append {r : Listing} {a b : Trace} (ha : NoFailure a)
    (hb : AbortsOnFailure r b) : AbortsOnFailure r (a ++ b) := by
  refine ⟨fun url token resp hmem hs => ?_, hb.2⟩
  rcases List.mem_append.mp hmem with h | h
  · exact absurd (ha url token resp h) hs
  · obtain ⟨hr, pre, hpre⟩ := hb.1 url token resp h hs
    exact ⟨hr, a ++ pre, by rw [hpre, List.append_assoc]⟩

/-- The function `sendRequest` appends one event; an error it returns satisfies
the obligation of a listing function, and without error the answer was 200. -/
theorem sendRequest_spec (w : World) (cfg : Settings) (url : GoString) (tr : Trace) :
    ∃ ev, (sendRequest w cfg url tr).2 = tr ++ [ev] ∧
      (∀ e, (sendRequest w cfg url tr).1.2 = some e →
        AbortsOnFailure (some ([], some e)) [ev]) ∧
      ((sendRequest w cfg url tr).1.2 = none → NoFailure [ev]) := by
  refine ⟨Event.httpGet url cfg.PrivateToken (w.httpGet tr url cfg.PrivateToken), ?_, ?_, ?_⟩
  · unfold sendRequest
    cases w.httpGet tr url cfg.PrivateToken with
    | failed err => rfl
    | response resp => by_cases hs : resp.StatusCode = 200 <;> simp [hs]
  · intro e he
    unfold sendRequest at he
    cases hget : w.httpGet tr url cfg.PrivateToken with
    | failed err =>
      refine aborts_of_noFailure ?_ (fun ps err h => by simp at h; exact h.1)
      intro u t resp hmem
      simp at hmem
    | response resp =>
      rw [hget] at he
      by_cases hs : resp.StatusCode = 200
      · refine aborts_of_noFailure ?_ (fun ps err h => by simp at h; exact h.1)
        intro u t r hmem
        simp at hmem
        rw [hmem.2.2]
        exact hs
      · simp [hs] at he
        refine ⟨fun u t r hmem _ => ?_, fun ps err h => by simp at h; exact h.1⟩
        simp at hmem
        obtain ⟨rfl, rfl, rfl⟩ := hmem
        exact ⟨by rw [← he]; rfl, [], rfl⟩
  · intro he
    unfold sendRequest at he
    intro u t r hmem
    simp at hmem
    obtain ⟨-, -, hresp⟩ := hmem
    rw [← hresp] at he
    by_contra hs
    simp [hs] at he

/-- The page loop appends events to the history and meets the obligation of a
listing function, whatever the fuel. -/
theorem getProjectsLoop_obligation (w : World) (cfg : Settings) (groupID : GoString) :
    ∀ (fuel : Nat) (acc : List Project) (page : Nat) (tr : Trace),
      ∃ new, (getProjectsLoop w cfg groupID fuel acc page tr).2 = tr ++ new ∧
        AbortsOnFailure (getProjectsLoop w cfg groupID fuel acc page tr).1 new := by
  intro fuel
  induction fuel with
  | zero =>
    intro acc page tr
    exact ⟨[], by simp [getProjectsLoop],
      aborts_of_noFailure noFailure_nil (fun ps err h => by simp [getProjectsLoop] at h)⟩
  | succ n ih =>
    intro acc page tr
    obtain ⟨ev, htr, herr, hok⟩ := sendRequest_spec w cfg (projectsURL cfg groupID page) tr
    rcases hsend : sendRequest w cfg (projectsURL cfg groupID page) tr with ⟨⟨body, err⟩, tr1⟩
    rw [hsend] at htr herr hok
    simp only at htr herr hok
    subst htr
    cases err with
    | some e =>
      refine ⟨[ev], ?_, ?_⟩ <;> simp only [getProjectsLoop, hsend]
      exact herr e rfl
    | none =>
      have hnf := hok rfl
      cases hdec : w.unmarshalProjects body with
      | error e =>
        refine ⟨[ev], ?_, ?_⟩ <;> simp only [getProjectsLoop, hsend, hdec]
        exact aborts_of_noFailure hnf (fun ps err h => by simp at h; exact h.1)
      | ok batch =>
        by_cases hb : batch.length = 0
        · refine ⟨[ev], ?_, ?_⟩ <;> simp only [getProjectsLoop, hsend, hdec, if_pos hb]
          exact aborts_of_noFailure hnf (fun ps err h => by simp at h)
        · obtain ⟨new, htr2, hab⟩ := ih (acc ++ batch) (page + 1) (tr ++ [ev])
          refine ⟨[ev] ++ new, ?_, ?_⟩ <;> simp only [getProjectsLoop, hsend, hdec, if_neg hb]
          · rw [htr2, List.append_assoc]
          · exact aborts_append hnf hab

/-- The function `getSubgroups` appends one event; an error comes with the nil
list and meets the obligation of a listing function. -/
theorem getSubgroups_spec (w : World) (cfg : Settings) (groupID : GoString) (tr : Trace) :
    ∃ ev, (getSubgroups w cfg groupID tr).2 = tr ++ [ev] ∧
      (∀ e, (getSubgroups w cfg groupID tr).1.2 = some e →
        AbortsOnFailure (some ([], some e)) [ev]) ∧
      ((getSubgroups w cfg groupID tr).1.2 = none → NoFailure [ev]) := by
  obtain ⟨ev, htr, herr, hok⟩ := sendRequest_spec w cfg (subgroupsURL cfg groupID) tr
  rcases hsend : sendRequest w cfg (subgroupsURL cfg groupID) tr with ⟨⟨body, err⟩, tr1⟩
  rw [hsend] at htr herr hok
  simp only at htr herr hok
  subst htr
  refine ⟨ev, ?_, ?_, ?_⟩
  · cases err with
    | some e => simp only [getSubgroups, hsend]
    | none => cases hdec : w.unmarshalSubgroups body <;> simp only [getSubgroups, hsend, hdec]
  · intro e he
    cases err with
    | some e1 =>
      simp only [getSubgroups, hsend] at he
      cases he
      exact herr e rfl
    | none =>
      exact aborts_of_noFailure (hok rfl) (fun ps err h => by simp at h; exact h.1)
  · intro he
    cases err with
    | some e1 => simp only [getSubgroups, hsend] at he; cases he
    | none => exact hok rfl

/-- The loop over the subgroups meets the obligation of a listing function
when every visit does. -/
theorem subgroupsLoop_obligation (visit : GoString → Trace → Listing × Trace)
    (hvisit : ∀ (g : GoString) (t : Trace),
      ∃ new, (visit g t).2 = t ++ new ∧ AbortsOnFailure (visit g t).1 new) :
    ∀ (subs : List Subgroup) (acc : List Project) (tr : Trace),
      ∃ new, (subgroupsLoop visit subs acc tr).2 = tr ++ new ∧
        AbortsOnFailure (subgroupsLoop visit subs acc tr).1 new := by
  intro subs
  induction subs with
  | nil =>
    intro acc tr
    exact ⟨[], by simp [subgroupsLoop],
      aborts_of_noFailure noFailure_nil (fun ps err h => by simp [subgroupsLoop] at h)⟩
  | cons s rest ih =>
    intro acc tr
    obtain ⟨new1, htr1, hab1⟩ := hvisit (itoa s.ID) tr
    rcases hv : visit (itoa s.ID) tr with ⟨r, tr1⟩
    rw [hv] at htr1 hab1
    simp only at htr1 hab1
    subst htr1
    match r, hab1 with
    | none, hab1 =>
      refine ⟨new1, ?_, ?_⟩ <;> simp only [subgroupsLoop, hv]
      exact hab1
    | some (ps, some e), hab1 =>
      refine ⟨new1, ?_, ?_⟩ <;> simp only [subgroupsLoop, hv]
      have hps := hab1.2 ps e rfl
      subst hps
      exact hab1
    | some (ps, none), hab1 =>
      obtain ⟨new2, htr2, hab2⟩ := ih (acc ++ ps) (tr ++ new1)
      refine ⟨new1 ++ new2, ?_, ?_⟩ <;> simp only [subgroupsLoop, hv]
      · rw [htr2, List.append_assoc]
      · exact aborts_append (noFailure_of_ok hab1) hab2

/-- The function `getAllProjects` appends events to the history and meets the
obligation of a listing function, whatever the fuel. -/
theorem getAllProjects_obligation (w : World) (cfg : Settings) :
    ∀ (fuel : Nat) (groupID : GoString) (tr : Trace),
      ∃ new, (getAllProjects w cfg fuel groupID tr).2 = tr ++ new ∧
        AbortsOnFailure (getAllProjects w cfg fuel groupID tr).1 new := by
  intro fuel
  induction fuel with
  | zero =>
    intro groupID tr
    exact ⟨[], by simp [getAllProjects],
      aborts_of_noFailure noFailure_nil (fun ps err h => by simp [getAllProjects] at h)⟩
  | succ n ih =>
    intro groupID tr
    obtain ⟨new1, htr1, hab1⟩ := getProjectsLoop_obligation w cfg groupID n [] 1 tr
    rcases hp : getProjectsLoop w cfg groupID n [] 1 tr with ⟨r, tr1⟩
    rw [hp] at htr1 hab1
    simp only at htr1 hab1
    subst htr1
    match r, hab1 with
    | none, hab1 =>
      refine ⟨new1, ?_, ?_⟩ <;> simp only [getAllProjects, getProjects, hp]
      exact hab1
    | some (ps, some e), hab1 =>
      refine ⟨new1, ?_, ?_⟩ <;> simp only [getAllProjects, getProjects, hp]
      have hps := hab1.2 ps e rfl
      subst hps
      exact hab1
    | some (ps, none), hab1 =>
      have hnf1 := noFailure_of_ok hab1
      obtain ⟨ev, htr2, herr, hok⟩ := getSubgroups_spec w cfg groupID (tr ++ new1)
      rcases hs : getSubgroups w cfg groupID (tr ++ new1) with ⟨⟨subs, err⟩, tr2⟩
      rw [hs] at htr2 herr hok
      simp only at htr2 herr hok
      subst htr2
      cases err with
      | some e =>
        refine ⟨new1 ++ [ev], ?_, ?_⟩ <;> simp only [getAllProjects, getProjects, hp, hs]
        · rw [List.append_assoc]
        · exact aborts_append hnf1 (herr e rfl)
      | none =>
        obtain ⟨new3, htr3, hab3⟩ :=
          subgroupsLoop_obligation (getAllProjects w cfg n) (fun g t => ih g t) subs ps
            (tr ++ new1 ++ [ev])
        refine ⟨new1 ++ ([ev] ++ new3), ?_, ?_⟩ <;>
          simp only [getAllProjects, getProjects, hp, hs]
        · rw [htr3]
          simp only [List.append_assoc]
        · exact aborts_append hnf1 (aborts_append (hok rfl) hab3)

/-- Claim C3.  In every run of `getAllProjects`, with any fuel: when a request
sent during the run was answered with a status other than 200, the run has
returned the nil list with the status error, and that request is the last
event; and an error is never returned together with a non-empty list. -/
theorem getAllProjects_aborts_on_failure (w : World) (cfg : Settings) (fuel : Nat)
    (groupID : GoString) (tr : Trace) :
    (∀ (new : Trace) (url token : GoString) (resp : Response),
      (getAllProjects w cfg fuel groupID tr).2 = tr ++ new →
      Event.httpGet url token (HttpResult.response resp) ∈ new →
      resp.StatusCode ≠ 200 →
        (getAllProjects w cfg fuel groupID tr).1
          = some ([], some (go "HTTP request failed with status " ++ resp.Status)) ∧
        ∃ pre, new = pre ++ [Event.httpGet url token (HttpResult.response resp)]) ∧
    (∃ new, (getAllProjects w cfg fuel groupID tr).2 = tr ++ new) ∧
    (∀ (ps : List Project) (err : GoString),
      (getAllProjects w cfg fuel groupID tr).1 = some (ps, some err) → ps = []) := by
  obtain ⟨new, htr, hab⟩ := getAllProjects_obligation w cfg fuel groupID tr
  refine ⟨fun new2 url token resp htr2 hmem hs => ?_, ⟨new, htr⟩, hab.2⟩
  have : new2 = new := List.append_cancel_left (htr2.symm.trans htr)
  subst this
  exact hab.1 url token resp hmem hs

theorem treeWorld_serves_root : ServesPages treeWorld demoCfg (go "1") rootPages := by
  intro h k hk
  have hk2 : k ≤ 2 := hk
  interval_cases k
  · exact ⟨_, rfl, rfl, rfl, by decide⟩
  · exact ⟨_, rfl, rfl, rfl, by decide⟩
  · exact ⟨_, rfl, rfl, rfl, by decide⟩

theorem treeWorld_serves_sub : ServesPages treeWorld demoCfg (go "2") [[demoProject]] := by
  intro h k hk
  have hk2 : k ≤ 1 := hk
  interval_cases k
  · exact ⟨_, rfl, rfl, rfl, by decide⟩
  · exact ⟨_, rfl, rfl, rfl, by decide⟩

theorem treeWorld_root_subgroups : ServesSubgroups treeWorld demoCfg (go "1") rootSubgroups := by
  intro h
  exact ⟨_, rfl, rfl, rfl, by decide⟩

theorem treeWorld_sub_subgroups : ServesSubgroups treeWorld demoCfg (go "2") [] := by
  intro h
  exact ⟨_, rfl, rfl, rfl, by decide⟩

theorem treeWorld_sub_hierarchy :
    ∀ s ∈ rootSubgroups, Hierarchy treeWorld demoCfg (itoa s.ID) [demoProject] := by
  intro s hs
  have hs2 : s = { ID := 2, Path := go "sub" } := by simpa [rootSubgroups] using hs
  subst hs2
  exact Hierarchy.node (go "2") [[demoProject]] [] (fun _ => []) (by decide)
    treeWorld_serves_sub treeWorld_sub_subgroups (by simp)

/-- Instance of C2: three projects on pages of two. -/
theorem getProjects_paginated_witness :
    ServesPages treeWorld demoCfg (go "1") rootPages ∧
    ∀ (fuel : Nat), rootPages.length < fuel → ∀ tr : Trace,
      (getProjects treeWorld demoCfg fuel (go "1") tr).1 = some (rootPages.flatten, none) ∧
      (∃ items, (getProjects treeWorld demoCfg fuel (go "1") tr).1 = some (items, none) ∧
        items.length = 3 ∧ (rootPages.flatten.Nodup → items.Nodup)) ∧
      ∃ new, (getProjects treeWorld demoCfg fuel (go "1") tr).2 = tr ++ new ∧
        requestURLs new
          = (List.range' 1 ((3 + 2 - 1) / 2 + 1)).map (projectsURL demoCfg (go "1")) :=
  ⟨treeWorld_serves_root,
   getProjects_paginated treeWorld demoCfg (go "1") 2 3 rootPages (by decide) (by decide)
    (by decide) (by decide) treeWorld_serves_root⟩

/-- Instance of C1: the hierarchy of `treeWorld`. -/
theorem getAllProjects_depth_first_witness :
    ServesPages treeWorld demoCfg (go "1") rootPages ∧
    ServesSubgroups treeWorld demoCfg (go "1") rootSubgroups ∧
    (∀ s ∈ rootSubgroups, Hierarchy treeWorld demoCfg (itoa s.ID) [demoProject]) ∧
    ∃ N, ∀ fuel, N ≤ fuel → ∀ tr : Trace,
      (getProjects treeWorld demoCfg fuel (go "1") tr).1 = some (rootPages.flatten, none) ∧
      (∀ s ∈ rootSubgroups,
        (getAllProjects treeWorld demoCfg fuel (itoa s.ID) tr).1 = some ([demoProject], none)) ∧
      (getAllProjects treeWorld demoCfg fuel (go "1") tr).1
        = some (rootPages.flatten ++ (rootSubgroups.map (fun _ => [demoProject])).flatten, none) ∧
      (∀ (before : List Subgroup) (s : Subgroup) (after : List Subgroup),
        rootSubgroups = before ++ s :: after →
        (getAllProjects treeWorld demoCfg fuel (go "1") tr).1
          = some (rootPages.flatten ++ ((before.map (fun _ => [demoProject])).flatten
              ++ ([demoProject] ++ (after.map (fun _ => [demoProject])).flatten)), none)) :=
  ⟨treeWorld_serves_root, treeWorld_root_subgroups, treeWorld_sub_hierarchy,
   getAllProjects_depth_first treeWorld demoCfg (go "1") rootPages rootSubgroups
    (fun _ => [demoProject]) (by decide) treeWorld_serves_root treeWorld_root_subgroups
    treeWorld_sub_hierarchy⟩

/-- Instance of C3: the second page of the root group is answered 500 after the
first page succeeded. -/
theorem getAllProjects_aborts_on_failure_witness :
    (getAllProjects flakyWorld demoCfg 4 (go "1") []).1
      = some ([], some (go "HTTP request failed with status 500 Internal Server Error")) := by
  have hrun : (getAllProjects flakyWorld demoCfg 4 (go "1") []).2
      = [] ++ [Event.httpGet (projectsURL demoCfg (go "1") 1) (go "abc123")
                (okResponse (go "root page 1")),
               Event.httpGet (projectsURL demoCfg (go "1") 2) (go "abc123")
                (HttpResult.response
                  { StatusCode := 500, Status := go "500 Internal Server Error", Body := [],
                    ReadErr := none })] := by
    decide
  exact ((getAllProjects_aborts_on_failure flakyWorld demoCfg 4 (go "1") []).1 _ _ _ _ hrun
    (List.mem_cons_of_mem _ (List.mem_singleton_self _)) (by decide)).1

theorem fetchConfigPath_ne_nil (configFlag : GoString) : fetchConfigPath configFlag ≠ [] := by
  unfold fetchConfigPath
  split
  · decide
  · assumption

/-- Claim C7 fails as stated: with a well-formed file that lacks `per_page`
`MustLoad` returns settings whose `PerPage` is zero, and `main` goes on to
fetch projects. -/
theorem MustLoad_accepts_missing_key :
    (MustLoad incompleteConfigWorld [] []).1
      = Except.ok { GitLabURL := go "https://gitlab.example.com", GroupID := go "1",
                    PrivateToken := go "abc123", CloneDir := go "/x", PerPage := 0 } ∧
    (main incompleteConfigWorld 4 [] []).1 = some (Except.ok ()) ∧
    requestURLs (main incompleteConfigWorld 4 [] []).2
      = [go "https://gitlab.example.com/api/v4/groups/1/projects?per_page=0&page=1",
         go "https://gitlab.example.com/api/v4/groups/1/subgroups",
         go "https://gitlab.example.com/api/v4/groups/2/projects?per_page=0&page=1",
         go "https://gitlab.example.com/api/v4/groups/2/subgroups"] := by
  decide

/-- Claim C7, as amended.  When the configuration file does not exist or
cannot be read and decoded, `MustLoad` panics and `main` ends with that panic
without any request, directory creation or clone; when the file exists and
decodes, `MustLoad` returns the settings of the file, a field whose key is
missing keeping its zero value. -/
theorem MustLoad_fails_on_absent_or_unreadable (w : World) (configFlag : GoString) (tr : Trace) :
    ((w.stat tr (fetchConfigPath configFlag) = StatResult.notExist ∨
      ∃ err, w.parseConfig
          (tr ++ [Event.stat (fetchConfigPath configFlag)
            (w.stat tr (fetchConfigPath configFlag))])
          (fetchConfigPath configFlag) = ParseResult.failed err) →
      ∃ msg, (MustLoad w configFlag tr).1 = Except.error msg ∧
        ∀ fuel, (main w fuel configFlag tr).1 = some (Except.error msg) ∧
          ∃ new, (main w fuel configFlag tr).2 = tr ++ new ∧
            requestURLs new = [] ∧ execCalls new = [] ∧ mkdirCalls new = []) ∧
    (∀ f : ConfigFile,
      w.stat tr (fetchConfigPath configFlag) ≠ StatResult.notExist →
      w.parseConfig
          (tr ++ [Event.stat (fetchConfigPath configFlag)
            (w.stat tr (fetchConfigPath configFlag))])
          (fetchConfigPath configFlag) = ParseResult.parsed f →
      (MustLoad w configFlag tr).1 = Except.ok (Settings.ofFile f)) := by
  have hne := fetchConfigPath_ne_nil configFlag
  constructor
  · intro h
    by_cases hst : w.stat tr (fetchConfigPath configFlag) = StatResult.notExist
    · refine ⟨go "config file does not exist: " ++ fetchConfigPath configFlag, ?_, fun fuel => ?_⟩
      · simp [MustLoad, hne, hst]
      · refine ⟨by simp [main, MustLoad, hne, hst],
          [Event.stat (fetchConfigPath configFlag) StatResult.notExist], ?_, ?_, ?_, ?_⟩
        · simp [main, MustLoad, hne, hst]
        · simp [requestURLs]
        · simp [execCalls]
        · simp [mkdirCalls]
    · rcases h with h | ⟨err, herr⟩
      · exact absurd h hst
      · refine ⟨go "error reading config: " ++ err, ?_, fun fuel => ?_⟩
        · simp [MustLoad, hne, hst, readConfig, herr]
        · refine ⟨by simp [main, MustLoad, hne, hst, readConfig, herr],
            [Event.stat (fetchConfigPath configFlag) (w.stat tr (fetchConfigPath configFlag)),
             Event.readConfig (fetchConfigPath configFlag) (ParseResult.failed err)],
            ?_, ?_, ?_, ?_⟩
          · simp [main, MustLoad, hne, hst, readConfig, herr]
          · simp [requestURLs]
          · simp [execCalls]
          · simp [mkdirCalls]
  · intro f hst hparse
    simp [MustLoad, hne, hst, readConfig, hparse, Settings.ofFile, Settings.zero]

/-- Instance of C7 as amended: an absent file, and a file without `per_page`. -/
theorem MustLoad_fails_on_absent_or_unreadable_witness :
    (∃ msg, (MustLoad noConfigWorld [] []).1 = Except.error msg ∧
      ∀ fuel, (main noConfigWorld fuel [] []).1 = some (Except.error msg) ∧
        ∃ new, (main noConfigWorld fuel [] []).2 = [] ++ new ∧
          requestURLs new = [] ∧ execCalls new = [] ∧ mkdirCalls new = []) ∧
    (MustLoad incompleteConfigWorld [] []).1 = Except.ok (Settings.ofFile fileWithoutPerPage) :=
  ⟨(MustLoad_fails_on_absent_or_unreadable noConfigWorld [] []).1 (Or.inl rfl),
   (MustLoad_fails_on_absent_or_unreadable incompleteConfigWorld [] []).2 fileWithoutPerPage
    (by decide) rfl⟩

end CloneGroupGitlab
